import Mathlib

/-!
Verification of `src/server/main.py` of the discovery-artifact-manager app
server: the PHP client regeneration pipeline (`cron_clients_php_update`),
the release tagger (`cron_clients_php_release`), the discovery refresher
(`cron_discoveries`), and their shared header check.

The target client repository's `src/Google/Service` directory is modelled
as an association list from artifact name to an opaque content value
standing for the generated `.php` file plus its companion directory.
A git commit of the working tree succeeds exactly when the working tree
differs extensionally from the committed (HEAD) tree.
-/

namespace Dartman

/-- The `src/Google/Service` directory of the client repository: artifact
name to content of the `Foo.php` file plus `Foo` directory. -/
abbrev Tree := List (String × String)

/-- Filesystem lookup: content stored at artifact name `key`, if any. -/
def lookupT : Tree → String → Option String
  | [], _ => none
  | (k, v) :: t, key => if k = key then some v else lookupT t key

/-- `rm -rf Service/Foo.php Service/Foo`: remove every entry named `key`. -/
def eraseKeyT : Tree → String → Tree
  | [], _ => []
  | (k, v) :: t, key => if k = key then eraseKeyT t key else (k, v) :: eraseKeyT t key

/-- The wholesale replace of lines 219-233 of `main.py`: `rm -rf` the old
artifact, then `cp` the freshly generated file and directory in. -/
def replaceT (t : Tree) (k v : String) : Tree := (k, v) :: eraseKeyT t k

/-- Two directory trees hold the same files (git tree equality). -/
def ExtEq (t1 t2 : Tree) : Prop := ∀ k, lookupT t1 k = lookupT t2 k

/-- Executable test for `ExtEq`, used to decide whether `git commit`
finds any change to commit. -/
def treeEqB (t1 t2 : Tree) : Bool :=
  (t1.map Prod.fst ++ t2.map Prod.fst).all fun k => lookupT t1 k == lookupT t2 k

theorem lookupT_eq_none {t : Tree} {k : String} (hk : k ∉ t.map Prod.fst) :
    lookupT t k = none := by
  induction t with
  | nil => rfl
  | cons a t ih =>
    cases a with
    | mk k1 v1 =>
      simp only [List.map_cons, List.mem_cons, not_or] at hk
      simp only [lookupT]
      rw [if_neg (fun e => hk.1 e.symm), ih hk.2]

theorem treeEqB_eq_true_iff {t1 t2 : Tree} : treeEqB t1 t2 = true ↔ ExtEq t1 t2 := by
  constructor
  · intro h k
    rw [treeEqB, List.all_eq_true] at h
    by_cases hk : k ∈ t1.map Prod.fst ++ t2.map Prod.fst
    · exact eq_of_beq (h k hk)
    · rw [List.mem_append, not_or] at hk
      rw [lookupT_eq_none hk.1, lookupT_eq_none hk.2]
  · intro h
    rw [treeEqB, List.all_eq_true]
    intro k _
    exact beq_iff_eq.mpr (h k)

theorem extEq_refl (t : Tree) : ExtEq t t := fun _ => rfl

theorem extEq_symm {t1 t2 : Tree} (h : ExtEq t1 t2) : ExtEq t2 t1 :=
  fun k => (h k).symm

theorem extEq_trans {t1 t2 t3 : Tree} (h1 : ExtEq t1 t2) (h2 : ExtEq t2 t3) :
    ExtEq t1 t3 := fun k => (h1 k).trans (h2 k)

theorem lookupT_eraseKeyT_ne {t : Tree} {key q : String} (h : q ≠ key) :
    lookupT (eraseKeyT t key) q = lookupT t q := by
  induction t with
  | nil => rfl
  | cons a t ih =>
    cases a with
    | mk k v =>
      by_cases hk : k = key
      · simp only [eraseKeyT, lookupT, if_pos hk, ih]
        rw [if_neg (by rw [hk]; exact fun e => h e.symm)]
      · simp only [eraseKeyT, lookupT, if_neg hk]
        by_cases hq : k = q
        · rw [if_pos hq, if_pos hq]
        · rw [if_neg hq, if_neg hq, ih]

theorem lookupT_replaceT_self (t : Tree) (k v : String) :
    lookupT (replaceT t k v) k = some v := by
  simp [replaceT, lookupT]

theorem lookupT_replaceT_ne (t : Tree) (k v : String) {q : String} (h : q ≠ k) :
    lookupT (replaceT t k v) q = lookupT t q := by
  simp only [replaceT, lookupT]
  rw [if_neg (fun e => h e.symm), lookupT_eraseKeyT_ne h]

theorem extEq_replaceT_of_lookup {t : Tree} {k v : String}
    (h : lookupT t k = some v) : ExtEq (replaceT t k v) t := by
  intro q
  by_cases hq : q = k
  · subst hq
    rw [lookupT_replaceT_self, h]
  · rw [lookupT_replaceT_ne _ _ _ hq]

/-- One Discovery document, as parsed at lines 171-177 of `main.py`. -/
structure Descriptor where
  id : String
  name : String
  version : String
deriving DecidableEq, Repr

/-- Uncaught Python exceptions that abort a cron job. -/
inductive PyError where
  /-- `preferred[id_]` at line 195 with an id absent from the dict. -/
  | keyError (key : String)
  /-- The `raise Exception(...)` at line 316 for a malformed latest tag. -/
  | tagPatternError (tag : String)
deriving DecidableEq, Repr

/-- Python dict lookup on an assignment-ordered list: assignments are
prepended, so the first match is the most recent assignment. -/
def dictGet : List (String × Bool) → String → Option Bool
  | [], _ => none
  | (k, v) :: m, key => if k = key then some v else dictGet m key

/-- Lines 129-137 of `main.py`: load `preferred` from the catalog index
items in order, then apply the two hard-coded overrides. -/
def buildPreferred (items : List (String × Bool)) : List (String × Bool) :=
  ("admin:datatransfer_v1", true) :: ("admin:directory_v1", true) ::
    items.foldl (fun m kv => kv :: m) []

/-- The mutable per-run state of `cron_clients_php_update`
(lines 159-170), together with the client repository clone: `head` is the
committed tree of `src/Google/Service`, `work` its working tree, and
`genLog` records the descriptors the generator was invoked on. -/
structure RunState where
  processed : List String
  added : List String
  updated : List String
  commit_count : Nat
  returncode : Int
  head : Tree
  work : Tree
  genLog : List Descriptor
deriving DecidableEq, Repr

/-- State just after a fresh clone (lines 159-170). -/
def initState (t : Tree) : RunState :=
  { processed := [], added := [], updated := [], commit_count := 0,
    returncode := -1, head := t, work := t, genLog := [] }

/-- `processed.add(id_)` at line 190. -/
def markProcessed (s : RunState) (d : Descriptor) : RunState :=
  { s with processed := d.id :: s.processed }

/-- Outcome of one loop iteration whose `git commit` found nothing to
commit (nonzero return code at line 242): the artifact was regenerated
and copied in, but no classification happens. -/
def stepNoCommit (g : Descriptor → String × String) (s : RunState) (d : Descriptor) :
    RunState :=
  { s with processed := d.id :: s.processed,
           work := replaceT s.work (g d).1 (g d).2,
           genLog := s.genLog ++ [d] }

/-- Outcome of one loop iteration whose `git commit` succeeded
(lines 242-248): the id is classified by the pre-replace existence check
of lines 213-215, `commit_count` rises, and `returncode` becomes zero. -/
def stepCommit (g : Descriptor → String × String) (s : RunState) (d : Descriptor) :
    RunState :=
  { s with processed := d.id :: s.processed,
           work := replaceT s.work (g d).1 (g d).2,
           head := replaceT s.work (g d).1 (g d).2,
           commit_count := s.commit_count + 1,
           returncode := 0,
           added := if (lookupT s.work (g d).1).isSome then s.added
                    else s.added ++ [d.id],
           updated := if (lookupT s.work (g d).1).isSome then s.updated ++ [d.id]
                      else s.updated,
           genLog := s.genLog ++ [d] }

/-- One iteration of the loop at lines 171-248 of `main.py`, for the
descriptor parsed from one Discovery document. `g` is the external
generator: it yields the derived artifact name (`service_name`,
lines 209-212) and the generated content. The commit attempt succeeds
exactly when the replaced working tree differs from HEAD. -/
def processDescriptor (p : List (String × Bool)) (g : Descriptor → String × String)
    (s : RunState) (d : Descriptor) : Except PyError RunState :=
  if d.id ∈ s.processed then .ok s
  else if d.name = "discovery" then .ok (markProcessed s d)
  else match dictGet p d.id with
    | none => .error (.keyError d.id)
    | some false => .ok (markProcessed s d)
    | some true =>
      if treeEqB (replaceT s.work (g d).1 (g d).2) s.head then .ok (stepNoCommit g s d)
      else .ok (stepCommit g s d)

/-- The whole descriptor loop; an uncaught exception aborts the run. -/
def runSteps (p : List (String × Bool)) (g : Descriptor → String × String) :
    List Descriptor → RunState → Except PyError RunState
  | [], s => .ok s
  | d :: ds, s =>
    match processDescriptor p g s d with
    | .ok s2 => runSteps p g ds s2
    | .error e => .error e

/-- The regeneration pipeline of `cron_clients_php_update`: clone the
client repository (committed and working tree both `t0`), then run the
descriptor loop. -/
def runPipeline (p : List (String × Bool)) (g : Descriptor → String × String)
    (ds : List Descriptor) (t0 : Tree) : Except PyError RunState :=
  runSteps p g ds (initState t0)

/-- Case analysis for one loop iteration that did not abort. -/
theorem processDescriptor_ok_cases {p : List (String × Bool)}
    {g : Descriptor → String × String} {s : RunState} {d : Descriptor} {s2 : RunState}
    (h : processDescriptor p g s d = .ok s2) :
    (d.id ∈ s.processed ∧ s2 = s)
    ∨ (d.id ∉ s.processed ∧ d.name = "discovery" ∧ s2 = markProcessed s d)
    ∨ (d.id ∉ s.processed ∧ d.name ≠ "discovery" ∧ dictGet p d.id = some false ∧
       s2 = markProcessed s d)
    ∨ (d.id ∉ s.processed ∧ d.name ≠ "discovery" ∧ dictGet p d.id = some true ∧
       treeEqB (replaceT s.work (g d).1 (g d).2) s.head = true ∧ s2 = stepNoCommit g s d)
    ∨ (d.id ∉ s.processed ∧ d.name ≠ "discovery" ∧ dictGet p d.id = some true ∧
       treeEqB (replaceT s.work (g d).1 (g d).2) s.head = false ∧ s2 = stepCommit g s d) := by
  by_cases h1 : d.id ∈ s.processed
  · refine Or.inl ⟨h1, ?_⟩
    rw [processDescriptor, if_pos h1] at h
    exact (Except.ok.inj h).symm
  · by_cases h2 : d.name = "discovery"
    · refine Or.inr (Or.inl ⟨h1, h2, ?_⟩)
      rw [processDescriptor, if_neg h1, if_pos h2] at h
      exact (Except.ok.inj h).symm
    · rw [processDescriptor, if_neg h1, if_neg h2] at h
      cases hd : dictGet p d.id with
      | none => rw [hd] at h; exact absurd h (by simp)
      | some b =>
        cases b with
        | false =>
          rw [hd] at h
          exact Or.inr (Or.inr (Or.inl ⟨h1, h2, rfl, (Except.ok.inj h).symm⟩))
        | true =>
          rw [hd] at h
          cases ht : treeEqB (replaceT s.work (g d).1 (g d).2) s.head with
          | true =>
            rw [ht] at h
            simp only [if_true] at h
            exact Or.inr (Or.inr (Or.inr (Or.inl ⟨h1, h2, rfl, rfl, (Except.ok.inj h).symm⟩)))
          | false =>
            rw [ht] at h
            simp only [Bool.false_eq_true, if_false] at h
            exact Or.inr (Or.inr (Or.inr (Or.inr ⟨h1, h2, rfl, rfl, (Except.ok.inj h).symm⟩)))

/-- Lexicographic comparison of char lists by code point, the order
Python `sorted` uses on strings. -/
def listLeB : List Char → List Char → Bool
  | [], _ => true
  | _ :: _, [] => false
  | c :: cs, d :: ds =>
    if c.toNat < d.toNat then true
    else if d.toNat < c.toNat then false
    else listLeB cs ds

/-- String comparison by code points, as Python `sorted` compares. -/
def strLeB (a b : String) : Bool := listLeB a.data b.data

theorem listLeB_total (a b : List Char) : listLeB a b = true ∨ listLeB b a = true := by
  induction a generalizing b with
  | nil => exact Or.inl rfl
  | cons c cs ih =>
    cases b with
    | nil => exact Or.inr rfl
    | cons d ds =>
      by_cases h1 : c.toNat < d.toNat
      · exact Or.inl (by simp [listLeB, h1])
      · by_cases h2 : d.toNat < c.toNat
        · exact Or.inr (by simp [listLeB, h2])
        · rcases ih ds with h | h
          · exact Or.inl (by simp [listLeB, h1, h2, h])
          · exact Or.inr (by simp [listLeB, h1, h2, h])

theorem listLeB_trans {a b c : List Char} (h1 : listLeB a b = true)
    (h2 : listLeB b c = true) : listLeB a c = true := by
  induction a generalizing b c with
  | nil => rfl
  | cons x xs ih =>
    cases b with
    | nil => exact absurd h1 (by simp [listLeB])
    | cons y ys =>
      cases c with
      | nil => exact absurd h2 (by simp [listLeB])
      | cons z zs =>
        simp only [listLeB] at h1 h2 ⊢
        by_cases hxy : x.toNat < y.toNat
        · by_cases hyz : y.toNat < z.toNat
          · rw [if_pos (by omega)]
          · rw [if_pos hxy] at h1
            by_cases hzy : z.toNat < y.toNat
            · rw [if_neg hyz, if_pos hzy] at h2
              exact absurd h2 (by simp)
            · rw [if_pos (by omega)]
        · by_cases hyx : y.toNat < x.toNat
          · rw [if_neg hxy, if_pos hyx] at h1
            exact absurd h1 (by simp)
          · by_cases hyz : y.toNat < z.toNat
            · rw [if_pos (by omega)]
            · by_cases hzy : z.toNat < y.toNat
              · rw [if_neg hyz, if_pos hzy] at h2
                exact absurd h2 (by simp)
              · rw [if_neg hxy, if_neg hyx] at h1
                rw [if_neg hyz, if_neg hzy] at h2
                rw [if_neg (by omega), if_neg (by omega)]
                exact ih h1 h2

instance : IsTotal String fun a b => strLeB a b = true :=
  ⟨fun a b => listLeB_total a.data b.data⟩

instance : IsTrans String fun a b => strLeB a b = true :=
  ⟨fun _ _ _ h1 h2 => listLeB_trans h1 h2⟩

/-- Python `sorted` on a collection of id strings. -/
def sortIds (l : List String) : List String :=
  List.insertionSort (fun a b => strLeB a b = true) l

theorem sortIds_sorted (l : List String) :
    List.Sorted (fun a b => strLeB a b = true) (sortIds l) :=
  List.sorted_insertionSort _ l

theorem sortIds_perm (l : List String) : List.Perm (sortIds l) l :=
  List.perm_insertionSort _ l

theorem str_ext {s t : String} (h : s.data = t.data) : s = t := by
  cases s; cases t; cases h; rfl

theorem strData_append (s t : String) : (s ++ t).data = s.data ++ t.data := by
  cases s; cases t; rfl

theorem strAppend_empty (s : String) : s ++ "" = s :=
  str_ext (by rw [strData_append]; exact List.append_nil _)

theorem strAppend_assoc (a b c : String) : a ++ b ++ c = a ++ (b ++ c) :=
  str_ext (by simp only [strData_append]; exact List.append_assoc _ _ _)

/-- Concatenation of a rendered line per id. -/
def concatMapStr (f : String → String) : List String → String
  | [] => ""
  | x :: xs => f x ++ concatMapStr f xs

/-- The loop `for id_ in ...: commitmsg += '- ' + id_ + '\n'` of
lines 260-261 and 264-265 of `main.py`. -/
def idLines (ids : List String) (acc : String) : String :=
  List.foldl (fun m i => m ++ ("- " ++ i ++ "\n")) acc ids

/-- Lines 258-261 of `main.py`: append the Add section if `added` is
non-empty. -/
def addPart (m : String) (added : List String) : String :=
  if added.isEmpty then m else idLines (sortIds added) (m ++ "\nAdd:\n")

/-- Lines 262-265 of `main.py`: append the Update section if `updated`
is non-empty. -/
def updatePart (m : String) (updated : List String) : String :=
  if updated.isEmpty then m else idLines (sortIds updated) (m ++ "\nUpdate:\n")

/-- Lines 256-265 of `main.py`: the aggregate commit message. -/
def commitmsg (today : String) (added updated : List String) : String :=
  updatePart (addPart ("Autogenerated update (" ++ today ++ ")\n") added) updated

/-- Modelled from the spec: one section of the summary message, a header
followed by one line per id, omitted entirely when the id list is empty. -/
def sectionStr (header : String) (ids : List String) : String :=
  if ids.isEmpty then "" else header ++ concatMapStr (fun i => "- " ++ i ++ "\n") ids

theorem idLines_eq (ids : List String) (acc : String) :
    idLines ids acc = acc ++ concatMapStr (fun i => "- " ++ i ++ "\n") ids := by
  induction ids generalizing acc with
  | nil => rw [idLines, List.foldl_nil, concatMapStr, strAppend_empty]
  | cons i ids ih =>
    rw [idLines, List.foldl_cons, ← idLines, ih, concatMapStr]
    exact str_ext (by simp [strData_append])

theorem sortIds_isEmpty (l : List String) : (sortIds l).isEmpty = l.isEmpty := by
  cases l with
  | nil => rfl
  | cons x xs =>
    cases hsl : sortIds (x :: xs) with
    | nil =>
      exfalso
      have hlen := (sortIds_perm (x :: xs)).length_eq
      rw [hsl] at hlen
      simp at hlen
    | cons y ys => rfl

theorem addPart_eq (m : String) (added : List String) :
    addPart m added = m ++ sectionStr "\nAdd:\n" (sortIds added) := by
  by_cases hl : added.isEmpty
  · have hs : (sortIds added).isEmpty = true := by rw [sortIds_isEmpty]; exact hl
    rw [addPart, if_pos hl, sectionStr, if_pos hs, strAppend_empty]
  · have hs : ¬((sortIds added).isEmpty = true) := by rw [sortIds_isEmpty]; exact hl
    rw [addPart, if_neg hl, sectionStr, if_neg hs, idLines_eq, strAppend_assoc]

theorem updatePart_eq (m : String) (updated : List String) :
    updatePart m updated = m ++ sectionStr "\nUpdate:\n" (sortIds updated) := by
  by_cases hl : updated.isEmpty
  · have hs : (sortIds updated).isEmpty = true := by rw [sortIds_isEmpty]; exact hl
    rw [updatePart, if_pos hl, sectionStr, if_pos hs, strAppend_empty]
  · have hs : ¬((sortIds updated).isEmpty = true) := by rw [sortIds_isEmpty]; exact hl
    rw [updatePart, if_neg hl, sectionStr, if_neg hs, idLines_eq, strAppend_assoc]

/-- Externally visible operations a cron job performs, in order. -/
inductive Action where
  /-- The Datastore credential fetch of `_get_github_account`. -/
  | credLookup
  /-- A `git clone` of a repository into the scratch directory. -/
  | cloneRepo
  /-- The `ln -s` for the Go workspace in `cron_discoveries`. -/
  | symlink
  /-- The `go run src/main/updatedisco/main.go` invocation. -/
  | goRun
  /-- `git add discoveries` in `cron_discoveries`. -/
  | gitAdd
  /-- The commit attempt of `cron_discoveries` (line 86). -/
  | commitAttempt
  /-- The virtualenv creation and generator install (lines 147-154). -/
  | venvSetup
  /-- `git reset --soft HEAD~commit_count` (line 253). -/
  | softReset (n : Nat)
  /-- The aggregate `git commit -a -m commitmsg` (lines 267-269). -/
  | aggCommit (msg : String)
  /-- `git remote add github <credential url>`. -/
  | remoteAdd
  /-- `git push github`. -/
  | push
  /-- `git describe --tags --abbrev=0` (line 300). -/
  | describeTags
  /-- `git log latest_tag..HEAD --oneline` (line 306). -/
  | gitLog
  /-- `git tag new_version` (line 331). -/
  | tagCreate (v : String)
  /-- `git push github --tags` (line 343). -/
  | pushTags
deriving DecidableEq, Repr

/-- Result of one HTTP request to a cron endpoint: a 403 rejection before
any work, a 200 with empty body after the listed actions, or a 500 from
an uncaught exception after the listed actions. -/
inductive EndpointResult where
  | forbidden
  | ok (actions : List Action) (body : String)
  | fatal (err : PyError) (actions : List Action)
deriving DecidableEq, Repr

/-- Actions performed by a request. A 403 rejection performs none. -/
def actionsOf : EndpointResult → List Action
  | .forbidden => []
  | .ok acts _ => acts
  | .fatal _ acts => acts

/-- The tags created by the listed actions. -/
def tagsOf (acts : List Action) : List String :=
  acts.filterMap fun a => match a with
    | .tagCreate v => some v
    | _ => none

/-- The `/cron/discoveries` endpoint (lines 52-105): check the scheduler
header, fetch credentials, clone, regenerate the discovery catalog, and
commit and push only when the commit attempt finds changes (`dirty`). -/
def cron_discoveries (hdr : Option String) (dirty : Bool) : EndpointResult :=
  match hdr with
  | none => .forbidden
  | some _ =>
    let pre : List Action :=
      [.credLookup, .cloneRepo, .symlink, .goRun, .gitAdd, .commitAttempt]
    if dirty then .ok (pre ++ [.remoteAdd, .push]) "" else .ok pre ""

/-- The fixed work of `cron_clients_php_update` before and during the
descriptor loop: credentials, two clones, index load, virtualenv. -/
def updatePre : List Action :=
  [.credLookup, .cloneRepo, .cloneRepo, .venvSetup]

/-- Lines 250-280 of `main.py`: when some per-descriptor commit succeeded
(`returncode` is zero), soft-reset the intermediate commits, make the one
aggregate commit, add the credential remote, and push; otherwise nothing. -/
def aggregateActions (today : String) (s : RunState) : List Action :=
  if s.returncode = 0 then
    [.softReset s.commit_count,
     .aggCommit (commitmsg today s.added s.updated),
     .remoteAdd, .push]
  else []

/-- The `/cron/clients/php/update` endpoint (lines 108-282): header
check, then the regeneration pipeline over the catalog, then the
aggregate commit phase. `items` is the parsed catalog index, `g` the
external generator, `ds` the descriptors of the globbed Discovery
documents, `t0` the cloned service tree, `today` the run date. -/
def cron_clients_php_update (hdr : Option String) (items : List (String × Bool))
    (g : Descriptor → String × String) (ds : List Descriptor) (t0 : Tree)
    (today : String) : EndpointResult :=
  match hdr with
  | none => .forbidden
  | some _ =>
    match runPipeline (buildPreferred items) g ds t0 with
    | .error e => .fatal e updatePre
    | .ok s => .ok (updatePre ++ aggregateActions today s) ""

/-- `span` of leading decimal digits, as `[0-9]+` consumes them. -/
def spanDigits : List Char → List Char × List Char
  | [] => ([], [])
  | c :: cs =>
    if c.isDigit then
      let p := spanDigits cs
      (c :: p.1, p.2)
    else ([], c :: cs)

/-- The anchored regex `^(v[0-9]+)\.([0-9]+)$` of line 313; yields
`(group 1, group 2)` on a match. -/
def matchTag (s : String) : Option (String × String) :=
  match s.data with
  | 'v' :: rest =>
    match spanDigits rest with
    | ([], _) => none
    | (ds1, rest1) =>
      match rest1 with
      | '.' :: rest2 =>
        match spanDigits rest2 with
        | ([], _) => none
        | (ds2, []) => some (String.mk ('v' :: ds1), String.mk ds2)
        | (_, _ :: _) => none
      | _ => none
  | _ => none

/-- Python `int` on a string of decimal digits. -/
def digitsToNat (s : String) : Nat :=
  s.data.foldl (fun n c => 10 * n + (c.toNat - 48)) 0

/-- The `/cron/clients/php/release` endpoint (lines 285-346): header
check, clone, read the latest tag and the commits after it; if any exist,
validate the tag pattern (aborting on mismatch) and create and push the
incremented tag. `log_lines` is the output of `git log`. -/
def cron_clients_php_release (hdr : Option String) (latest_tag : String)
    (log_lines : List String) : EndpointResult :=
  match hdr with
  | none => .forbidden
  | some _ =>
    let pre : List Action := [.credLookup, .cloneRepo, .describeTags, .gitLog]
    if log_lines.isEmpty then .ok pre ""
    else match matchTag latest_tag with
      | none => .fatal (.tagPatternError latest_tag) pre
      | some (g1, g2) =>
        let new_version := g1 ++ "." ++ toString (digitsToNat g2 + 1)
        .ok (pre ++ [.tagCreate new_version, .remoteAdd, .pushTags]) ""

/-- A run that ends normally decomposes into its first step and the rest. -/
theorem runSteps_cons_ok {p : List (String × Bool)} {g : Descriptor → String × String}
    {d : Descriptor} {ds : List Descriptor} {s s1 : RunState}
    (h : runSteps p g (d :: ds) s = .ok s1) :
    ∃ s2, processDescriptor p g s d = .ok s2 ∧ runSteps p g ds s2 = .ok s1 := by
  rw [runSteps] at h
  cases hp : processDescriptor p g s d with
  | ok s2 => rw [hp] at h; exact ⟨s2, rfl, h⟩
  | error e => rw [hp] at h; exact absurd h (by simp)

theorem runSteps_nil_ok {p : List (String × Bool)} {g : Descriptor → String × String}
    {s s1 : RunState} (h : runSteps p g [] s = .ok s1) : s1 = s :=
  (Except.ok.inj h).symm

/-- The dedup set never acquires a duplicate entry. -/
theorem runSteps_nodup {p : List (String × Bool)} {g : Descriptor → String × String} :
    ∀ {ds : List Descriptor} {s s1 : RunState}, runSteps p g ds s = .ok s1 →
    s.processed.Nodup → s1.processed.Nodup := by
  intro ds
  induction ds with
  | nil => intro s s1 h hn; rw [runSteps_nil_ok h]; exact hn
  | cons d ds ih =>
    intro s s1 h hn
    obtain ⟨s2, hstep, hrest⟩ := runSteps_cons_ok h
    rcases processDescriptor_ok_cases hstep with
      ⟨hmem, rfl⟩ | ⟨hmem, hname, rfl⟩ | ⟨hmem, hname, hpref, rfl⟩ |
      ⟨hmem, hname, hpref, htb, rfl⟩ | ⟨hmem, hname, hpref, htb, rfl⟩
    · exact ih hrest hn
    · exact ih hrest (List.nodup_cons.mpr ⟨hmem, hn⟩)
    · exact ih hrest (List.nodup_cons.mpr ⟨hmem, hn⟩)
    · exact ih hrest (List.nodup_cons.mpr ⟨hmem, hn⟩)
    · exact ih hrest (List.nodup_cons.mpr ⟨hmem, hn⟩)

/-- `returncode` is zero exactly when some per-descriptor commit has
succeeded, i.e. exactly when `commit_count` is positive. -/
theorem runSteps_returncode {p : List (String × Bool)} {g : Descriptor → String × String} :
    ∀ {ds : List Descriptor} {s s1 : RunState}, runSteps p g ds s = .ok s1 →
    (s.returncode = 0 ↔ 0 < s.commit_count) →
    (s1.returncode = 0 ↔ 0 < s1.commit_count) := by
  intro ds
  induction ds with
  | nil => intro s s1 h hi; rw [runSteps_nil_ok h]; exact hi
  | cons d ds ih =>
    intro s s1 h hi
    obtain ⟨s2, hstep, hrest⟩ := runSteps_cons_ok h
    rcases processDescriptor_ok_cases hstep with
      ⟨hmem, rfl⟩ | ⟨hmem, hname, rfl⟩ | ⟨hmem, hname, hpref, rfl⟩ |
      ⟨hmem, hname, hpref, htb, rfl⟩ | ⟨hmem, hname, hpref, htb, rfl⟩
    · exact ih hrest hi
    · exact ih hrest hi
    · exact ih hrest hi
    · exact ih hrest hi
    · exact ih hrest (by simp [stepCommit])

/-- Classified ids were processed, and no id is in both sets. -/
theorem runSteps_class_inv {p : List (String × Bool)} {g : Descriptor → String × String} :
    ∀ {ds : List Descriptor} {s s1 : RunState}, runSteps p g ds s = .ok s1 →
    ((∀ i ∈ s.added, i ∈ s.processed) ∧ (∀ i ∈ s.updated, i ∈ s.processed) ∧
     (∀ i ∈ s.added, i ∉ s.updated)) →
    ((∀ i ∈ s1.added, i ∈ s1.processed) ∧ (∀ i ∈ s1.updated, i ∈ s1.processed) ∧
     (∀ i ∈ s1.added, i ∉ s1.updated)) := by
  intro ds
  induction ds with
  | nil => intro s s1 h hi; rw [runSteps_nil_ok h]; exact hi
  | cons d ds ih =>
    intro s s1 h hi
    obtain ⟨s2, hstep, hrest⟩ := runSteps_cons_ok h
    obtain ⟨ha, hu, hd⟩ := hi
    rcases processDescriptor_ok_cases hstep with
      ⟨hmem, rfl⟩ | ⟨hmem, hname, rfl⟩ | ⟨hmem, hname, hpref, rfl⟩ |
      ⟨hmem, hname, hpref, htb, rfl⟩ | ⟨hmem, hname, hpref, htb, rfl⟩
    · exact ih hrest ⟨ha, hu, hd⟩
    · refine ih hrest ⟨?_, ?_, hd⟩
      · intro i hia; exact List.mem_cons_of_mem _ (ha i hia)
      · intro i hiu; exact List.mem_cons_of_mem _ (hu i hiu)
    · refine ih hrest ⟨?_, ?_, hd⟩
      · intro i hia; exact List.mem_cons_of_mem _ (ha i hia)
      · intro i hiu; exact List.mem_cons_of_mem _ (hu i hiu)
    · refine ih hrest ⟨?_, ?_, hd⟩
      · intro i hia; exact List.mem_cons_of_mem _ (ha i hia)
      · intro i hiu; exact List.mem_cons_of_mem _ (hu i hiu)
    · refine ih hrest ⟨?_, ?_, ?_⟩
      · intro i hia
        simp only [stepCommit] at hia ⊢
        by_cases hex : (lookupT s.work (g d).1).isSome
        · rw [if_pos hex] at hia
          exact List.mem_cons_of_mem _ (ha i hia)
        · rw [if_neg hex] at hia
          rcases List.mem_append.mp hia with hia | hia
          · exact List.mem_cons_of_mem _ (ha i hia)
          · rw [List.mem_singleton.mp hia]; exact List.mem_cons_self _ _
      · intro i hiu
        simp only [stepCommit] at hiu ⊢
        by_cases hex : (lookupT s.work (g d).1).isSome
        · rw [if_pos hex] at hiu
          rcases List.mem_append.mp hiu with hiu | hiu
          · exact List.mem_cons_of_mem _ (hu i hiu)
          · rw [List.mem_singleton.mp hiu]; exact List.mem_cons_self _ _
        · rw [if_neg hex] at hiu
          exact List.mem_cons_of_mem _ (hu i hiu)
      · intro i hia
        simp only [stepCommit] at hia ⊢
        by_cases hex : (lookupT s.work (g d).1).isSome
        · rw [if_pos hex] at hia
          rw [if_pos hex]
          intro hiu
          rcases List.mem_append.mp hiu with hiu | hiu
          · exact hd i hia hiu
          · rw [List.mem_singleton.mp hiu] at hia
            exact hmem (ha _ hia)
        · rw [if_neg hex] at hia
          rw [if_neg hex]
          rcases List.mem_append.mp hia with hia | hia
          · exact hd i hia
          · rw [List.mem_singleton.mp hia]
            intro hiu
            exact hmem (hu _ hiu)

/-- The generator is only ever invoked on a preferred descriptor whose
name is not the catalog self-descriptor sentinel. -/
theorem runSteps_genLog_names {p : List (String × Bool)} {g : Descriptor → String × String} :
    ∀ {ds : List Descriptor} {s s1 : RunState}, runSteps p g ds s = .ok s1 →
    (∀ d ∈ s.genLog, d.name ≠ "discovery" ∧ dictGet p d.id = some true) →
    (∀ d ∈ s1.genLog, d.name ≠ "discovery" ∧ dictGet p d.id = some true) := by
  intro ds
  induction ds with
  | nil => intro s s1 h hi; rw [runSteps_nil_ok h]; exact hi
  | cons d ds ih =>
    intro s s1 h hi
    obtain ⟨s2, hstep, hrest⟩ := runSteps_cons_ok h
    rcases processDescriptor_ok_cases hstep with
      ⟨hmem, rfl⟩ | ⟨hmem, hname, rfl⟩ | ⟨hmem, hname, hpref, rfl⟩ |
      ⟨hmem, hname, hpref, htb, rfl⟩ | ⟨hmem, hname, hpref, htb, rfl⟩
    · exact ih hrest hi
    · exact ih hrest hi
    · exact ih hrest hi
    · refine ih hrest ?_
      intro d2 hd2
      simp only [stepNoCommit] at hd2
      rcases List.mem_append.mp hd2 with hd2 | hd2
      · exact hi d2 hd2
      · rw [List.mem_singleton.mp hd2]; exact ⟨hname, hpref⟩
    · refine ih hrest ?_
      intro d2 hd2
      simp only [stepCommit] at hd2
      rcases List.mem_append.mp hd2 with hd2 | hd2
      · exact hi d2 hd2
      · rw [List.mem_singleton.mp hd2]; exact ⟨hname, hpref⟩

/-- The generator invocation log only grows during the loop. -/
theorem runSteps_genLog_mono {p : List (String × Bool)} {g : Descriptor → String × String} :
    ∀ {ds : List Descriptor} {s s1 : RunState}, runSteps p g ds s = .ok s1 →
    ∀ x ∈ s.genLog, x ∈ s1.genLog := by
  intro ds
  induction ds with
  | nil => intro s s1 h x hx; rw [runSteps_nil_ok h]; exact hx
  | cons d ds ih =>
    intro s s1 h x hx
    obtain ⟨s2, hstep, hrest⟩ := runSteps_cons_ok h
    rcases processDescriptor_ok_cases hstep with
      ⟨hmem, rfl⟩ | ⟨hmem, hname, rfl⟩ | ⟨hmem, hname, hpref, rfl⟩ |
      ⟨hmem, hname, hpref, htb, rfl⟩ | ⟨hmem, hname, hpref, htb, rfl⟩
    · exact ih hrest x hx
    · exact ih hrest x hx
    · exact ih hrest x hx
    · exact ih hrest x (by simp only [stepNoCommit]; exact List.mem_append_left _ hx)
    · exact ih hrest x (by simp only [stepCommit]; exact List.mem_append_left _ hx)

/-- After the loop, HEAD and the working tree agree, and the tree holds
the generator output of every descriptor that was generated — provided
descriptors generated to the same artifact name have the same content. -/
theorem runSteps_tree_inv {p : List (String × Bool)} {g : Descriptor → String × String} :
    ∀ {ds : List Descriptor} {s s1 : RunState}, runSteps p g ds s = .ok s1 →
    (∀ d1 d2, (d1 ∈ s.genLog ∨ d1 ∈ ds) → (d2 ∈ s.genLog ∨ d2 ∈ ds) →
      (g d1).1 = (g d2).1 → (g d1).2 = (g d2).2) →
    ExtEq s.head s.work →
    (∀ d ∈ s.genLog, lookupT s.work (g d).1 = some (g d).2) →
    (ExtEq s1.head s1.work ∧ ∀ d ∈ s1.genLog, lookupT s1.work (g d).1 = some (g d).2) := by
  intro ds
  induction ds with
  | nil => intro s s1 h _ hhw hlk; rw [runSteps_nil_ok h]; exact ⟨hhw, hlk⟩
  | cons d ds ih =>
    intro s s1 h hcons hhw hlk
    obtain ⟨s2, hstep, hrest⟩ := runSteps_cons_ok h
    have hcons2 : ∀ d1 d2, (d1 ∈ s.genLog ∨ d1 ∈ ds) → (d2 ∈ s.genLog ∨ d2 ∈ ds) →
        (g d1).1 = (g d2).1 → (g d1).2 = (g d2).2 := by
      intro d1 d2 h1 h2
      exact hcons d1 d2 (h1.imp_right (List.mem_cons_of_mem d))
        (h2.imp_right (List.mem_cons_of_mem d))
    have hconsE : ∀ d1 d2, (d1 ∈ s.genLog ++ [d] ∨ d1 ∈ ds) →
        (d2 ∈ s.genLog ++ [d] ∨ d2 ∈ ds) → (g d1).1 = (g d2).1 → (g d1).2 = (g d2).2 := by
      intro d1 d2 h1 h2
      refine hcons d1 d2 ?_ ?_
      · rcases h1 with h1 | h1
        · rcases List.mem_append.mp h1 with h1 | h1
          · exact Or.inl h1
          · exact Or.inr (List.mem_singleton.mp h1 ▸ List.mem_cons_self _ _)
        · exact Or.inr (List.mem_cons_of_mem d h1)
      · rcases h2 with h2 | h2
        · rcases List.mem_append.mp h2 with h2 | h2
          · exact Or.inl h2
          · exact Or.inr (List.mem_singleton.mp h2 ▸ List.mem_cons_self _ _)
        · exact Or.inr (List.mem_cons_of_mem d h2)
    have hlkNew : ∀ (st : Tree), st = s.work →
        ∀ d2 ∈ s.genLog ++ [d],
          lookupT (replaceT s.work (g d).1 (g d).2) (g d2).1 = some (g d2).2 := by
      intro st _ d2 hd2
      rcases List.mem_append.mp hd2 with hd2 | hd2
      · by_cases hkey : (g d2).1 = (g d).1
        · rw [hkey, lookupT_replaceT_self]
          have : (g d2).2 = (g d).2 :=
            hcons d2 d (Or.inl hd2) (Or.inr (List.mem_cons_self _ _)) hkey
          rw [this]
        · rw [lookupT_replaceT_ne _ _ _ hkey]
          exact hlk d2 hd2
      · rw [List.mem_singleton.mp hd2, lookupT_replaceT_self]
    rcases processDescriptor_ok_cases hstep with
      ⟨hmem, rfl⟩ | ⟨hmem, hname, rfl⟩ | ⟨hmem, hname, hpref, rfl⟩ |
      ⟨hmem, hname, hpref, htb, rfl⟩ | ⟨hmem, hname, hpref, htb, rfl⟩
    · exact ih hrest hcons2 hhw hlk
    · exact ih hrest hcons2 hhw hlk
    · exact ih hrest hcons2 hhw hlk
    · refine ih hrest hconsE ?_ ?_
      · exact extEq_symm (treeEqB_eq_true_iff.mp htb)
      · exact hlkNew s.work rfl
    · refine ih hrest hconsE ?_ ?_
      · exact extEq_refl _
      · exact hlkNew s.work rfl

/-- Second-run simulation: re-running the loop from a clone whose tree
already extensionally holds every artifact the first run generated takes
exactly the skip or no-change branch at every descriptor, so the commit
count and return code never move. -/
theorem run2_sim {p : List (String × Bool)} {g : Descriptor → String × String} {T : Tree} :
    ∀ {ds : List Descriptor} {sA sB s1 : RunState}, runSteps p g ds sA = .ok s1 →
    sB.processed = sA.processed →
    ExtEq sB.work T → ExtEq sB.head sB.work →
    (∀ d ∈ s1.genLog, lookupT T (g d).1 = some (g d).2) →
    ∃ s2, runSteps p g ds sB = .ok s2 ∧
      s2.commit_count = sB.commit_count ∧ s2.returncode = sB.returncode := by
  intro ds
  induction ds with
  | nil =>
    intro sA sB s1 h hproc hwT hhw hT
    exact ⟨sB, rfl, rfl, rfl⟩
  | cons d ds ih =>
    intro sA sB s1 h hproc hwT hhw hT
    obtain ⟨s2A, hstep, hrest⟩ := runSteps_cons_ok h
    rcases processDescriptor_ok_cases hstep with
      ⟨hmem, rfl⟩ | ⟨hmem, hname, rfl⟩ | ⟨hmem, hname, hpref, rfl⟩ |
      ⟨hmem, hname, hpref, htb, rfl⟩ | ⟨hmem, hname, hpref, htb, rfl⟩
    · have hstepB : processDescriptor p g sB d = .ok sB := by
        rw [processDescriptor, if_pos (hproc ▸ hmem)]
      obtain ⟨s2, h2, hc, hr⟩ := ih hrest hproc hwT hhw hT
      exact ⟨s2, by rw [runSteps, hstepB]; exact h2, hc, hr⟩
    · have hstepB : processDescriptor p g sB d = .ok (markProcessed sB d) := by
        rw [processDescriptor, if_neg (hproc ▸ hmem), if_pos hname]
      have hproc2 : (markProcessed sB d).processed = (markProcessed sA d).processed := by
        simp only [markProcessed]; rw [hproc]
      obtain ⟨s2, h2, hc, hr⟩ := ih hrest hproc2 hwT hhw hT
      exact ⟨s2, by rw [runSteps, hstepB]; exact h2, hc, hr⟩
    · have hstepB : processDescriptor p g sB d = .ok (markProcessed sB d) := by
        rw [processDescriptor, if_neg (hproc ▸ hmem), if_neg hname]
        simp only [hpref]
      have hproc2 : (markProcessed sB d).processed = (markProcessed sA d).processed := by
        simp only [markProcessed]; rw [hproc]
      obtain ⟨s2, h2, hc, hr⟩ := ih hrest hproc2 hwT hhw hT
      exact ⟨s2, by rw [runSteps, hstepB]; exact h2, hc, hr⟩
    all_goals {
      have hdgen : d ∈ s1.genLog := by
        refine runSteps_genLog_mono hrest d ?_
        first
        | exact (by simp only [stepNoCommit]
                    exact List.mem_append_right _ (List.mem_singleton_self d))
        | exact (by simp only [stepCommit]
                    exact List.mem_append_right _ (List.mem_singleton_self d))
      have hlkB : lookupT sB.work (g d).1 = some (g d).2 := by
        rw [hwT (g d).1]; exact hT d hdgen
      have hrepl : ExtEq (replaceT sB.work (g d).1 (g d).2) sB.work :=
        extEq_replaceT_of_lookup hlkB
      have htbB : treeEqB (replaceT sB.work (g d).1 (g d).2) sB.head = true :=
        treeEqB_eq_true_iff.mpr (extEq_trans hrepl (extEq_symm hhw))
      have hstepB : processDescriptor p g sB d = .ok (stepNoCommit g sB d) := by
        rw [processDescriptor, if_neg (hproc ▸ hmem), if_neg hname]
        simp only [hpref]
        rw [if_pos htbB]
      have hproc2 : (stepNoCommit g sB d).processed = d.id :: sA.processed := by
        simp only [stepNoCommit]; rw [hproc]
      have hwT2 : ExtEq (stepNoCommit g sB d).work T := extEq_trans hrepl hwT
      have hhw2 : ExtEq (stepNoCommit g sB d).head (stepNoCommit g sB d).work :=
        extEq_trans hhw (extEq_symm hrepl)
      obtain ⟨s2, h2, hc, hr⟩ := ih hrest hproc2 hwT2 hhw2 hT
      refine ⟨s2, by rw [runSteps, hstepB]; exact h2, ?_, ?_⟩
      · rw [hc]; rfl
      · rw [hr]; rfl
    }

/-- The loop over a concatenation of documents is the loop over the
first part followed, if it did not abort, by the loop over the rest. -/
theorem runSteps_append (p : List (String × Bool)) (g : Descriptor → String × String)
    (l1 l2 : List Descriptor) (s : RunState) :
    runSteps p g (l1 ++ l2) s =
      match runSteps p g l1 s with
      | .ok s2 => runSteps p g l2 s2
      | .error e => .error e := by
  induction l1 generalizing s with
  | nil => rfl
  | cons d l1 ih =>
    rw [List.cons_append, runSteps, runSteps]
    cases processDescriptor p g s d with
    | ok s2 => exact ih s2
    | error e => rfl

theorem dictGet_eq_none_iff (m : List (String × Bool)) (k : String) :
    dictGet m k = none ↔ k ∉ m.map Prod.fst := by
  induction m with
  | nil => simp [dictGet]
  | cons a m ih =>
    cases a with
    | mk k1 v1 =>
      by_cases hk : k1 = k
      · subst hk
        simp [dictGet]
      · simp only [dictGet, if_neg hk, List.map_cons, List.mem_cons, not_or]
        rw [ih]
        constructor
        · intro h; exact ⟨fun e => hk e.symm, h⟩
        · intro h; exact h.2

theorem foldl_prepend_keys (items : List (String × Bool)) (acc : List (String × Bool))
    (k : String) :
    k ∈ (items.foldl (fun m kv => kv :: m) acc).map Prod.fst ↔
      k ∈ items.map Prod.fst ∨ k ∈ acc.map Prod.fst := by
  induction items generalizing acc with
  | nil => simp
  | cons i items ih =>
    rw [List.foldl_cons, ih]
    simp only [List.map_cons, List.mem_cons]
    tauto

/-- An id is absent from the preferred dict exactly when it is absent
from the catalog index and is neither hard-coded override. -/
theorem dictGet_buildPreferred_none (items : List (String × Bool)) (k : String) :
    dictGet (buildPreferred items) k = none ↔
      (k ∉ items.map Prod.fst ∧ k ≠ "admin:directory_v1" ∧
       k ≠ "admin:datatransfer_v1") := by
  rw [dictGet_eq_none_iff, buildPreferred]
  simp only [List.map_cons, List.mem_cons, not_or, foldl_prepend_keys]
  simp only [List.map_nil, List.not_mem_nil, or_false]
  tauto

/-- A generator mapping two distinct ids to the same artifact name
(the `cloudtrace:v2` / `tracing:v2` collision shape noted at
lines 179-187 of `main.py`). -/
def exGen : Descriptor → String × String := fun d => ("Foo", d.id)

/-- A generator giving each descriptor its own artifact name. -/
def exGen2 : Descriptor → String × String := fun d => (d.name, d.id)

/-- Sample descriptor with id `a:v1`. -/
def dA : Descriptor := ⟨"a:v1", "an", "v"⟩

/-- Sample descriptor with id `b:v1`. -/
def dB : Descriptor := ⟨"b:v1", "bn", "v"⟩

/-- Sample preferred dict marking both sample ids preferred. -/
def exPref : List (String × Bool) := [("a:v1", true), ("b:v1", true)]

/-- Sample catalog of the two sample descriptors. -/
def exDs : List Descriptor := [dA, dB]

/-- Final state of a run of `exDs` under `exGen` from an empty tree. -/
def exS1 : RunState :=
  ⟨["b:v1", "a:v1"], ["a:v1"], ["b:v1"], 2, 0, [("Foo", "b:v1")],
   [("Foo", "b:v1")], [dA, dB]⟩

/-- Final state of a run of `exDs` under `exGen2` from an empty tree. -/
def exS1b : RunState :=
  ⟨["b:v1", "a:v1"], ["a:v1", "b:v1"], [], 2, 0,
   [("bn", "b:v1"), ("an", "a:v1")], [("bn", "b:v1"), ("an", "a:v1")], [dA, dB]⟩

/-- Final state of a second run of `exDs` under `exGen2`, starting from
the tree the first run left behind. -/
def exS2b : RunState :=
  ⟨["b:v1", "a:v1"], [], [], 0, -1,
   [("bn", "b:v1"), ("an", "a:v1")], [("bn", "b:v1"), ("an", "a:v1")], [dA, dB]⟩

/-- The commit count of the second of two identical pipeline runs, the
second starting from the tree the first one pushed. -/
def secondRunCommitCount (p : List (String × Bool)) (g : Descriptor → String × String)
    (ds : List Descriptor) (t0 : Tree) : Option Nat :=
  match runPipeline p g ds t0 with
  | .error _ => none
  | .ok s1 =>
    match runPipeline p g ds s1.work with
    | .error _ => none
    | .ok s2 => some s2.commit_count

/-- C1: in every run each descriptor id is processed at most once
(`processed` stays duplicate-free); a descriptor whose id is already in
the processed set is skipped with no state change whatever its content;
and the first descriptor seen with a given id is put into the processed
set even when the exclusion filter then skips it. -/
theorem claim_c1 (p : List (String × Bool)) (g : Descriptor → String × String)
    (ds : List Descriptor) (t0 : Tree) (s1 : RunState)
    (hrun : runPipeline p g ds t0 = .ok s1) :
    s1.processed.Nodup ∧
    (∀ s d, d.id ∈ s.processed → processDescriptor p g s d = .ok s) ∧
    (∀ s d s2, d.id ∉ s.processed → processDescriptor p g s d = .ok s2 →
      d.id ∈ s2.processed) := by
  have hrun2 : runSteps p g ds (initState t0) = .ok s1 := hrun
  refine ⟨runSteps_nodup hrun2 (by simp [initState]), ?_, ?_⟩
  · intro s d hm
    rw [processDescriptor, if_pos hm]
  · intro s d s2 hm hok
    rcases processDescriptor_ok_cases hok with
      ⟨hmem, rfl⟩ | ⟨hmem, hname, rfl⟩ | ⟨hmem, hname, hpref, rfl⟩ |
      ⟨hmem, hname, hpref, htb, rfl⟩ | ⟨hmem, hname, hpref, htb, rfl⟩
    · exact absurd hmem hm
    · exact List.mem_cons_self _ _
    · exact List.mem_cons_self _ _
    · exact List.mem_cons_self _ _
    · exact List.mem_cons_self _ _

/-- Sample mid-run state whose processed set holds the id `x`. -/
def exSx : RunState :=
  ⟨["x"], [], [], 0, -1, [], [], []⟩

/-- Sample duplicate-id descriptor. -/
def dX : Descriptor := ⟨"x", "n", "v"⟩

/-- Sample descriptor named `discovery`. -/
def dY : Descriptor := ⟨"y", "discovery", "v"⟩

/-- C1 witness: a duplicate id is skipped without touching the state,
and a descriptor named `discovery` is still marked processed. -/
theorem claim_c1_witness :
    processDescriptor exPref exGen2 exSx dX = .ok exSx ∧
    dY.id ∈ (markProcessed exSx dY).processed := by
  obtain ⟨hnd, h1, h2⟩ := claim_c1 exPref exGen2 [] [] (initState []) rfl
  exact ⟨h1 exSx dX (by decide), h2 exSx dY (markProcessed exSx dY) (by decide) rfl⟩

/-- C2: over any completed run no id ends up in both the added and the
updated set; and whenever a per-descriptor commit succeeds, the id goes
to `added` exactly when no artifact of the derived name was in the tree
before that replace, and to `updated` exactly when one was. -/
theorem claim_c2 (p : List (String × Bool)) (g : Descriptor → String × String)
    (ds : List Descriptor) (t0 : Tree) (s1 : RunState)
    (hrun : runPipeline p g ds t0 = .ok s1) :
    (∀ i ∈ s1.added, i ∉ s1.updated) ∧
    (∀ s d, d.id ∉ s.added → d.id ∉ s.updated →
      ((d.id ∈ (stepCommit g s d).added ↔ lookupT s.work (g d).1 = none) ∧
       (d.id ∈ (stepCommit g s d).updated ↔ (lookupT s.work (g d).1).isSome = true))) := by
  have hrun2 : runSteps p g ds (initState t0) = .ok s1 := hrun
  constructor
  · exact (runSteps_class_inv hrun2 (by simp [initState])).2.2
  · intro s d hna hnu
    cases hlk : lookupT s.work (g d).1 with
    | some v =>
      constructor
      · simp [stepCommit, hlk, hna]
      · simp [stepCommit, hlk]
    | none =>
      constructor
      · simp [stepCommit, hlk]
      · simp [stepCommit, hlk, hnu]

/-- C2 witness: in the collision run the added id is not in the updated
set, and a successful commit over an empty tree classifies as added. -/
theorem claim_c2_witness :
    ("a:v1" ∉ exS1.updated) ∧
    (dA.id ∈ (stepCommit exGen (initState []) dA).added ↔
      lookupT (initState ([] : Tree)).work (exGen dA).1 = none) := by
  obtain ⟨h1, h2⟩ := claim_c2 exPref exGen exDs [] exS1 rfl
  exact ⟨h1 "a:v1" (by decide), (h2 (initState []) dA (by decide) (by decide)).1⟩

/-- C3: the generator is only invoked on descriptors that are preferred
after overrides and not named `discovery`; a descriptor that is excluded
by name or by a false preferred flag leaves the target tree and the
generator log untouched. -/
theorem claim_c3 (p : List (String × Bool)) (g : Descriptor → String × String)
    (ds : List Descriptor) (t0 : Tree) (s1 : RunState)
    (hrun : runPipeline p g ds t0 = .ok s1) :
    (∀ d ∈ s1.genLog, d.name ≠ "discovery" ∧ dictGet p d.id = some true) ∧
    (∀ s d s2, (d.name = "discovery" ∨ dictGet p d.id = some false) →
      processDescriptor p g s d = .ok s2 → s2.work = s.work ∧ s2.genLog = s.genLog) := by
  have hrun2 : runSteps p g ds (initState t0) = .ok s1 := hrun
  constructor
  · refine runSteps_genLog_names hrun2 ?_
    intro d hd
    exact absurd hd (List.not_mem_nil _)
  · intro s d s2 hskip hok
    rcases processDescriptor_ok_cases hok with
      ⟨hmem, rfl⟩ | ⟨hmem, hname, rfl⟩ | ⟨hmem, hname, hpref, rfl⟩ |
      ⟨hmem, hname, hpref, htb, rfl⟩ | ⟨hmem, hname, hpref, htb, rfl⟩
    · exact ⟨rfl, rfl⟩
    · exact ⟨rfl, rfl⟩
    · exact ⟨rfl, rfl⟩
    · rcases hskip with hname2 | hpref2
      · exact absurd hname2 hname
      · rw [hpref] at hpref2
        exact absurd hpref2 (by decide)
    · rcases hskip with hname2 | hpref2
      · exact absurd hname2 hname
      · rw [hpref] at hpref2
        exact absurd hpref2 (by decide)

/-- C3 witness: a generated descriptor of the sample run was preferred
and not the sentinel, and a sentinel-named descriptor changes neither
tree nor generator log. -/
theorem claim_c3_witness :
    (dA.name ≠ "discovery" ∧ dictGet exPref dA.id = some true) ∧
    (markProcessed (initState []) ⟨"z", "discovery", "v"⟩).work =
      (initState ([] : Tree)).work := by
  obtain ⟨h1, h2⟩ := claim_c3 exPref exGen2 exDs [] exS1b rfl
  exact ⟨h1 dA (by decide),
         (h2 (initState []) ⟨"z", "discovery", "v"⟩
           (markProcessed (initState []) ⟨"z", "discovery", "v"⟩) (Or.inl rfl) rfl).1⟩

/-- C4: a run with zero successful per-descriptor commits performs no
soft reset, no aggregate commit, no remote addition and no push, and the
endpoint still answers success with an empty body. -/
theorem claim_c4 (items : List (String × Bool)) (g : Descriptor → String × String)
    (ds : List Descriptor) (t0 : Tree) (today h : String) (s1 : RunState)
    (hrun : runPipeline (buildPreferred items) g ds t0 = .ok s1)
    (hzero : s1.commit_count = 0) :
    aggregateActions today s1 = [] ∧
    cron_clients_php_update (some h) items g ds t0 today = .ok updatePre "" ∧
    (∀ n, Action.softReset n ∉ updatePre) ∧
    (∀ m, Action.aggCommit m ∉ updatePre) ∧
    Action.remoteAdd ∉ updatePre ∧ Action.push ∉ updatePre := by
  have hrun2 : runSteps (buildPreferred items) g ds (initState t0) = .ok s1 := hrun
  have hiff := runSteps_returncode hrun2 (by norm_num [initState])
  have hrc : ¬(s1.returncode = 0) := by
    intro h0
    rw [hzero] at hiff
    exact absurd (hiff.mp h0) (by decide)
  have hagg : aggregateActions today s1 = [] := by
    rw [aggregateActions, if_neg hrc]
  refine ⟨hagg, ?_, ?_, ?_, ?_, ?_⟩
  · simp only [cron_clients_php_update, hrun, hagg, List.append_nil]
  · intro n; simp [updatePre]
  · intro m; simp [updatePre]
  · simp [updatePre]
  · simp [updatePre]

/-- C4 witness: an empty catalog commits nothing and the update endpoint
returns success having performed only the fixed setup work. -/
theorem claim_c4_witness :
    aggregateActions "today" (initState []) = [] ∧
    cron_clients_php_update (some "x") [] exGen2 [] [] "today" = .ok updatePre "" ∧
    (∀ n, Action.softReset n ∉ updatePre) ∧
    (∀ m, Action.aggCommit m ∉ updatePre) ∧
    Action.remoteAdd ∉ updatePre ∧ Action.push ∉ updatePre :=
  claim_c4 [] exGen2 [] [] "today" "x" (initState []) rfl rfl

/-- C5: the aggregate commit message is the dated title, then an Add
section only when the added set is non-empty, then an Update section
only when the updated set is non-empty, each listing its ids in sorted
order (sorted and a permutation of the set). -/
theorem claim_c5 (today : String) (added updated : List String) :
    commitmsg today added updated =
      ("Autogenerated update (" ++ today ++ ")\n")
        ++ sectionStr "\nAdd:\n" (sortIds added)
        ++ sectionStr "\nUpdate:\n" (sortIds updated) ∧
    List.Sorted (fun a b => strLeB a b = true) (sortIds added) ∧
    List.Perm (sortIds added) added ∧
    List.Sorted (fun a b => strLeB a b = true) (sortIds updated) ∧
    List.Perm (sortIds updated) updated := by
  refine ⟨?_, sortIds_sorted added, sortIds_perm added,
          sortIds_sorted updated, sortIds_perm updated⟩
  rw [commitmsg, addPart_eq, updatePart_eq]

/-- C6: a latest tag matching the pattern together with a non-empty
post-tag commit list makes the release job create exactly the tag with
the same major prefix and the minor incremented by one; an empty commit
list creates no tag. -/
theorem claim_c6 (h latest : String) (logs : List String) (g1 g2 : String)
    (hm : matchTag latest = some (g1, g2)) (hne : logs ≠ []) :
    tagsOf (actionsOf (cron_clients_php_release (some h) latest logs)) =
      [g1 ++ "." ++ toString (digitsToNat g2 + 1)] ∧
    ∀ latest2 : String, tagsOf (actionsOf (cron_clients_php_release (some h) latest2 [])) = [] := by
  constructor
  · have hemp : logs.isEmpty = false := by
      cases logs with
      | nil => exact absurd rfl hne
      | cons a l => rfl
    simp [cron_clients_php_release, hemp, hm, actionsOf, tagsOf, List.filterMap]
  · intro latest2
    simp [cron_clients_php_release, actionsOf, tagsOf, List.filterMap]

/-- C6 witness: latest tag `v0.12` with one pending commit yields
exactly the tag `v0.13`. -/
theorem claim_c6_witness :
    tagsOf (actionsOf (cron_clients_php_release (some "x") "v0.12" ["c1"])) = ["v0.13"] := by
  have h := (claim_c6 "x" "v0.12" ["c1"] "v0" "12" (by decide) (by decide)).1
  rw [h]
  decide

/-- C7: a latest tag that does not match the version pattern, with
pending commits, aborts the release job with the tag-pattern error
before any tag is created or pushed. -/
theorem claim_c7 (h latest : String) (logs : List String)
    (hm : matchTag latest = none) (hne : logs ≠ []) :
    cron_clients_php_release (some h) latest logs =
      .fatal (.tagPatternError latest)
        [.credLookup, .cloneRepo, .describeTags, .gitLog] ∧
    tagsOf (actionsOf (cron_clients_php_release (some h) latest logs)) = [] ∧
    Action.pushTags ∉ actionsOf (cron_clients_php_release (some h) latest logs) := by
  have hemp : logs.isEmpty = false := by
    cases logs with
    | nil => exact absurd rfl hne
    | cons a l => rfl
  have hres : cron_clients_php_release (some h) latest logs =
      .fatal (.tagPatternError latest)
        [.credLookup, .cloneRepo, .describeTags, .gitLog] := by
    simp [cron_clients_php_release, hemp, hm]
  refine ⟨hres, ?_, ?_⟩
  · rw [hres]
    rfl
  · rw [hres]
    simp [actionsOf]

/-- C7 witness: latest tag `release-5` with a pending commit makes the
release job abort with the configuration error and no tag actions. -/
theorem claim_c7_witness :
    cron_clients_php_release (some "x") "release-5" ["c1"] =
      .fatal (.tagPatternError "release-5")
        [.credLookup, .cloneRepo, .describeTags, .gitLog] :=
  (claim_c7 "x" "release-5" ["c1"] (by decide) (by decide)).1

/-- C8: a request without the scheduler header is rejected with 403 by
each of the three endpoints before any action is performed. -/
theorem claim_c8 (dirty : Bool) (items : List (String × Bool))
    (g : Descriptor → String × String) (ds : List Descriptor) (t0 : Tree)
    (today latest : String) (logs : List String) :
    cron_discoveries none dirty = .forbidden ∧
    cron_clients_php_update none items g ds t0 today = .forbidden ∧
    cron_clients_php_release none latest logs = .forbidden ∧
    actionsOf EndpointResult.forbidden = [] :=
  ⟨rfl, rfl, rfl, rfl⟩

/-- C9 counterexample: with two distinct preferred ids generating the
same artifact name with different content — the collision shape the
dedup comment itself describes — a second run over the unchanged catalog
and generator makes two commits, not zero. -/
theorem claim_c9_counterexample :
    secondRunCommitCount exPref exGen exDs [] = some 2 ∧
    secondRunCommitCount exPref exGen exDs [] ≠ some 0 := by
  constructor
  · rfl
  · intro h
    rw [show secondRunCommitCount exPref exGen exDs [] = some 2 from rfl] at h
    exact absurd (Option.some.inj h) (by decide)

/-- C9 (amended): when no two catalog descriptors generate the same
artifact name with different content, a second run of the pipeline over
the unchanged catalog and generator output, starting from the tree the
first run left, makes zero per-descriptor commits. -/
theorem claim_c9_amended (p : List (String × Bool)) (g : Descriptor → String × String)
    (ds : List Descriptor) (t0 : Tree) (s1 s2 : RunState)
    (hcons : ∀ d1 d2, d1 ∈ ds → d2 ∈ ds → (g d1).1 = (g d2).1 → (g d1).2 = (g d2).2)
    (h1 : runPipeline p g ds t0 = .ok s1)
    (h2 : runPipeline p g ds s1.work = .ok s2) :
    s2.commit_count = 0 := by
  have h1s : runSteps p g ds (initState t0) = .ok s1 := h1
  have h2s : runSteps p g ds (initState s1.work) = .ok s2 := h2
  have hcons0 : ∀ d1 d2, (d1 ∈ (initState t0).genLog ∨ d1 ∈ ds) →
      (d2 ∈ (initState t0).genLog ∨ d2 ∈ ds) →
      (g d1).1 = (g d2).1 → (g d1).2 = (g d2).2 := by
    intro d1 d2 hd1 hd2
    exact hcons d1 d2 (hd1.resolve_left (List.not_mem_nil _))
      (hd2.resolve_left (List.not_mem_nil _))
  obtain ⟨hhw, hlk⟩ := runSteps_tree_inv h1s hcons0 (extEq_refl _)
    (by intro d hd; exact absurd hd (List.not_mem_nil _))
  obtain ⟨s2x, h2x, hc, hr⟩ := @run2_sim p g s1.work ds (initState t0)
    (initState s1.work) s1 h1s rfl (extEq_refl _) (extEq_refl _) hlk
  rw [h2x] at h2s
  rw [← Except.ok.inj h2s]
  exact hc

/-- C9 (amended) witness: the collision-free sample catalog commits
twice on the first run and zero times on the second. -/
theorem claim_c9_amended_witness : exS2b.commit_count = 0 :=
  claim_c9_amended exPref exGen2 exDs [] exS1b exS2b
    (by intro d1 d2 h1 h2 hk
        simp only [exDs, List.mem_cons, List.not_mem_nil, or_false] at h1 h2
        rcases h1 with rfl | rfl <;> rcases h2 with rfl | rfl <;> revert hk <;> decide)
    rfl rfl

/-- C10: a descriptor that passes the dedup guard, is not named
`discovery`, and whose id is neither in the catalog index nor one of the
two hard-coded overrides, aborts the pipeline with an uncaught key-error
at the preferred lookup. -/
theorem claim_c10 (items : List (String × Bool)) (g : Descriptor → String × String)
    (pre : List Descriptor) (d : Descriptor) (post : List Descriptor)
    (t0 : Tree) (s : RunState)
    (hpre : runSteps (buildPreferred items) g pre (initState t0) = .ok s)
    (hdedup : d.id ∉ s.processed) (hname : d.name ≠ "discovery")
    (hitems : d.id ∉ items.map Prod.fst)
    (hov1 : d.id ≠ "admin:directory_v1") (hov2 : d.id ≠ "admin:datatransfer_v1") :
    runPipeline (buildPreferred items) g (pre ++ d :: post) t0 =
      .error (.keyError d.id) := by
  have hnone : dictGet (buildPreferred items) d.id = none :=
    (dictGet_buildPreferred_none items d.id).mpr ⟨hitems, hov1, hov2⟩
  have hstep : processDescriptor (buildPreferred items) g s d =
      .error (.keyError d.id) := by
    rw [processDescriptor, if_neg hdedup, if_neg hname]
    simp only [hnone]
  rw [runPipeline, runSteps_append, hpre]
  show runSteps (buildPreferred items) g (d :: post) s = .error (.keyError d.id)
  simp only [runSteps, hstep]

/-- C10 witness: an empty catalog index and the descriptor id `x` make
the whole pipeline abort with the key error for `x`. -/
theorem claim_c10_witness :
    runPipeline (buildPreferred []) exGen2 ([] ++ dX :: []) [] =
      .error (.keyError "x") :=
  claim_c10 [] exGen2 [] dX [] [] (initState []) rfl (by decide) (by decide)
    (by decide) (by decide) (by decide)

end Dartman
